import Mathlib

/-!
Shallow embedding of the commontk/CmdLineParams sources
(`StringUtil.hxx`, `ctkCmdLineApplication.hxx`, `ctkParam.hxx`) and proofs
about its string conversions, parameter registry, command-line scanner,
ini parser and XML descriptor generator.

C++ `std::string` values are modelled as Lean `String` (with the underlying
`List Char` used for recursion), machine `int` as unbounded `Int` (claims
under scrutiny only involve values far from the 32-bit limits), and fallible
or undefined-behaviour paths (null-pointer dereference, `pop_back` on an
empty vector, out-of-bounds array reads) as `Option`, where `none` marks the
point where the C++ run leaves defined behaviour.
-/

namespace CtkCLI

/-! ### Decimal integers: `ostringstream <<` output and `istringstream >>` input

`ctkCLI::toString<int>` streams the value through `ostringstream`, producing
the usual decimal representation (a `-` sign for negatives, no padding).
`ctkCLI::stringTo<int>` streams through `istringstream >> int`: leading
whitespace is skipped, an optional sign is read, then the longest digit run;
if no digits are extracted the C++11 extractor stores 0. -/

/-- A decimal digit rendered as its character, as the `ostringstream`
inserter for `int` produces it. -/
def digitToChar : Nat → Char
  | 0 => '0' | 1 => '1' | 2 => '2' | 3 => '3' | 4 => '4'
  | 5 => '5' | 6 => '6' | 7 => '7' | 8 => '8' | _ => '9'

/-- Numeric value of a decimal digit character (only used on digits). -/
def charToDigit (c : Char) : Nat := c.toNat - 48

/-- `isdigit` for the decimal extractor. -/
def isDigitCh (c : Char) : Bool := 48 ≤ c.toNat && c.toNat ≤ 57

/-- Little-endian decimal digits of `n`, with explicit structural fuel
(`fuel ≥ n` suffices), so that everything evaluates by kernel reduction. -/
def natDigitsGo : Nat → Nat → List Nat
  | 0, _ => []
  | _ + 1, 0 => []
  | fuel + 1, n + 1 => ((n + 1) % 10) :: natDigitsGo fuel ((n + 1) / 10)

/-- Little-endian decimal digits of `n` (empty for 0). -/
def natDigits (n : Nat) : List Nat := natDigitsGo n n

/-- Value of a little-endian digit list (proof-side companion of
`natDigits`). -/
def ofDigitsLE (ds : List Nat) : Nat := ds.foldr (fun d acc => 10 * acc + d) 0

/-- Decimal character representation of a natural number. -/
def natToChars (n : Nat) : List Char :=
  if n = 0 then ['0'] else ((natDigits n).map digitToChar).reverse

/-- `ctkCLI::toString<int>` (ostringstream insertion of an `int`). -/
def intToChars (x : Int) : List Char :=
  if x < 0 then '-' :: natToChars x.natAbs else natToChars x.natAbs

/-- `ctkCLI::toString<int>` on `String`. -/
def intToString (x : Int) : String := ⟨intToChars x⟩

/-- Value of a digit run, most significant first (the extractor's
accumulation loop). -/
def parseNatChars (l : List Char) : Nat := l.foldl (fun a c => 10 * a + charToDigit c) 0

/-- Stream whitespace as `istream` skips it before a numeric extraction. -/
def isStreamWS (c : Char) : Bool := c = ' ' || c = '\t' || c = '\n' || c = '\r'

/-- `ctkCLI::stringTo<int>` (istringstream extraction of an `int`):
skip whitespace, optional sign, longest digit run; zero when no digit
is extracted (C++11 stores 0 on extraction failure). -/
def parseIntChars (l : List Char) : Int :=
  match l.dropWhile isStreamWS with
  | [] => 0
  | c :: r =>
    if c = '-' then -(parseNatChars (r.takeWhile isDigitCh) : Int)
    else if c = '+' then (parseNatChars (r.takeWhile isDigitCh) : Int)
    else (parseNatChars ((c :: r).takeWhile isDigitCh) : Int)

/-- `ctkCLI::stringTo<int>` on `String`. -/
def stringToInt (s : String) : Int := parseIntChars s.data

/-! ### Boolean conversions (`StringUtil.hxx` lines 27-33) -/

/-- `ctkCLI::toString<bool>`: `in ? "true" : "false"`. -/
def boolToString (b : Bool) : String := if b then "true" else "false"

/-- `ctkCLI::stringTo<bool>`: `"true"`/`"yes"` ↦ true, `"false"`/`"no"` ↦ false,
otherwise `stringTo<int>(in) > 0`. -/
def stringToBool (s : String) : Bool :=
  if s = "true" || s = "yes" then true
  else if s = "false" || s = "no" then false
  else 0 < stringToInt s

/-! ### `ctkCLI::stringToVector` (`StringUtil.hxx` lines 45-54)

```cpp
std::string item;  std::vector<T> ret;  std::istringstream str(in);
for (;std::getline(str,item,delim);str&&!str.eof())
  ret.push_back(stringTo<T>(item));
if (item.empty()) ret.pop_back();
```

`std::getline(str,item,delim)` succeeds iff it extracts at least one
character (the discarded delimiter counts); on success `item` holds the
characters before the delimiter.  Consequences, mirrored below:

* an empty input fails the first `getline` (which erases `item`), so the
  loop body never runs, `item` is empty and `pop_back` runs on an empty
  vector — undefined behaviour, modelled as `none`;
* if the input ends with the delimiter, every delimiter-terminated segment
  is returned by a successful `getline` (so the segments are
  `splitOn` minus its final empty segment), and the last `getline` attempt
  starts exactly at end-of-data with no eofbit pending, fails, and *erases*
  `item`; the trailing `pop_back` therefore removes the last *parsed*
  element;
* if the input does not end with the delimiter, the final segment is
  extracted with eofbit raised, the next `getline` fails at the sentry
  *without* erasing `item`, so `item` keeps the final (nonempty) segment
  and no `pop_back` happens. -/

/-- Split a character list at every occurrence of `d`
(`"a,b,".splitOnChar ','` = `["a","b",""]`); always nonempty. -/
def splitOnChar (d : Char) : List Char → List (List Char)
  | [] => [[]]
  | c :: cs =>
    match splitOnChar d cs with
    | [] => [[]]
    | t :: ts => if c = d then [] :: t :: ts else (c :: t) :: ts

/-- Whether the character list ends with `d`. -/
def endsWithChar (d : Char) (l : List Char) : Bool := l.getLast? = some d

/-- The values of `item` for which the `getline` loop body runs (see the
derivation above). -/
def getlineTokens (d : Char) (l : List Char) : List (List Char) :=
  if l = [] then []
  else if endsWithChar d l then (splitOnChar d l).dropLast
  else splitOnChar d l

/-- Whether `item` is empty once the loop has finished (see derivation). -/
def lastItemEmpty (d : Char) (l : List Char) : Bool := l.isEmpty || endsWithChar d l

/-- `ctkCLI::stringToVector<T>(in,delim)`; `none` models `pop_back` on an
empty vector (undefined behaviour). -/
def stringToVectorChars (pa : List Char → α) (d : Char) (l : List Char) : Option (List α) :=
  let ret := (getlineTokens d l).map pa
  if lastItemEmpty d l then
    match ret with
    | [] => none
    | _ => some ret.dropLast
  else some ret

/-- `ctkCLI::stringTo<std::vector<int>>` (delimiter `,`). -/
def stringToIntVector (s : String) : Option (List Int) :=
  stringToVectorChars parseIntChars ',' s.data

/-- `ctkCLI::stringTo<std::vector<std::string>>` (scalar conversion is the
identity, delimiter `,`). -/
def stringToStringVector (s : String) : Option (List String) :=
  stringToVectorChars (fun l => (⟨l⟩ : String)) ',' s.data

/-! ### `ctkCLI::vectortoString` (`StringUtil.hxx` lines 35-43) -/

/-- `ctkCLI::vectortoString(in,delim)`: empty string for an empty vector,
otherwise the elements' string forms joined by `delim`. -/
def vectorToStringChars (f : α → List Char) (d : List Char) : List α → List Char
  | [] => []
  | x :: xs => xs.foldl (fun acc y => acc ++ d ++ f y) (f x)

/-- The tail of a comma-joined rendering: `",f y₁,f y₂,…"` (proof-side
companion of `vectorToStringChars`). -/
def joinTail (f : α → List Char) : List α → List Char
  | [] => []
  | y :: ys => ',' :: f y ++ joinTail f ys

/-- `ctkCLI::toString<std::vector<int>>` (delimiter `","`). -/
def intVectorToString (v : List Int) : String :=
  ⟨vectorToStringChars (fun x => intToChars x) [','] v⟩

/-- `ctkCLI::toString<std::vector<std::string>>` (delimiter `","`). -/
def stringVectorToString (v : List String) : String :=
  ⟨vectorToStringChars (fun s => s.data) [','] v⟩

/-! ### `ctkCLI::trim` (`StringUtil.hxx` lines 68-82) -/

/-- The default trim set `" \t"`. -/
def isTrimWS (c : Char) : Bool := c = ' ' || c = '\t'

/-- `ctkCLI::trim` (ltrim then rtrim with `" \t"`). -/
def trimChars (l : List Char) : List Char :=
  ((l.dropWhile isTrimWS).reverse.dropWhile isTrimWS).reverse

/-- `ctkCLI::trim` on `String`. -/
def trimS (s : String) : String := ⟨trimChars s.data⟩

/-! ### The parameter variant (`ctkCLI::ctkParamData<T>`, `ctkCmdLineApplication.hxx` lines 122-133)

One constructor per C++ instantiation that the claims exercise.  The type
tags come from the `getTypeName` specializations (lines 69-77). -/

inductive PValue where
  | pBool (b : Bool)
  | pInt (n : Int)
  | pStr (s : String)
  | pIntVec (v : List Int)
  | pStrVec (v : List String)
  deriving Repr, DecidableEq

/-- `ctkParamData<T>::getType` (through `getTypeName<T>`). -/
def PValue.getType : PValue → String
  | .pBool _ => "boolean"
  | .pInt _ => "integer"
  | .pStr _ => "string"
  | .pIntVec _ => "integer-vector"
  | .pStrVec _ => "string-vector"

/-- `ctkParamData<T>::getString`: `toString(value)`. -/
def PValue.getString : PValue → String
  | .pBool b => boolToString b
  | .pInt n => intToString n
  | .pStr s => s
  | .pIntVec v => intVectorToString v
  | .pStrVec v => stringVectorToString v

/-- `ctkParamData<T>::setString`: `value = stringTo<T>(new_value)`;
`none` marks the vector conversions' undefined `pop_back` on empty. -/
def PValue.setString : PValue → String → Option PValue
  | .pBool _, s => some (.pBool (stringToBool s))
  | .pInt _, s => some (.pInt (stringToInt s))
  | .pStr _, s => some (.pStr s)
  | .pIntVec _, s => (stringToIntVector s).map .pIntVec
  | .pStrVec _, s => (stringToStringVector s).map .pStrVec

/-! ### Association lists standing for `std::map`

Only lookup and insert-or-replace are exercised by the claims below; the
claims never traverse a map in key order (the application-tag emission of
`getXMLDescription` walks a fixed array, not the map), so an association
list is an adequate stand-in for `std::map`. -/

/-- `map.find(k)` / `map[k]` lookup. -/
def alookup (k : String) : List (String × α) → Option α
  | [] => none
  | (k', v) :: rest => if k' = k then some v else alookup k rest

/-- `map[k] = v` insert-or-replace. -/
def aset (k : String) (v : α) : List (String × α) → List (String × α)
  | [] => [(k, v)]
  | (k', v') :: rest => if k' = k then (k, v) :: rest else (k', v') :: aset k v rest

/-! ### The registry (`ctkCmdLineApplication`, lines 156-228) -/

structure Registry where
  /-- `param`: section ↦ key ↦ parameter. -/
  param : List (String × List (String × PValue))
  /-- `commandLineFlags`: token ↦ (section, key). -/
  commandLineFlags : List (String × (String × String))
  /-- application-level `tags`. -/
  tags : List (String × String)
  deriving Repr, DecidableEq

/-- `ctkCmdLineApplication::getParam` (lines 242-248): double `find`,
null when absent. -/
def Registry.getParam (r : Registry) (s k : String) : Option PValue :=
  match alookup s r.param with
  | none => none
  | some m => alookup k m

/-- Store the parameter object at `(s,k)` (models both
`param[section][key]=p` and a mutation of the pointed-to object). -/
def Registry.install (r : Registry) (s k : String) (p : PValue) : Registry :=
  { r with param := aset s (aset k p ((alookup s r.param).getD [])) r.param }

/-- `ctkCmdLineApplication::setParam` (lines 252-265):

```cpp
std::string value;
if (param[section].find(key) != param[section].end())
{ value=param[section][key]->getString(); delete param[section][key]; }
param[section][key]=p;
if (!value.empty()) p->setString(value);
```

The installed object is `p`, mutated by `setString` when the captured
string is nonempty. -/
def Registry.setParam (r : Registry) (s k : String) (p : PValue) : Option Registry :=
  let value := match r.getParam s k with
    | some old => old.getString
    | none => ""
  if value = "" then some (r.install s k p)
  else (p.setString value).map fun q => r.install s k q

/-- `ctkCmdLineApplication::setFlag` (lines 235-238). -/
def Registry.setFlag (r : Registry) (flag s k : String) : Registry :=
  { r with commandLineFlags := aset flag (s, k) r.commandLineFlags }

/-- The private constructor (lines 175-179): `tags["description"]=description;
tags["title"]=titel;` — note it fills the key `"title"`. -/
def mkApplication (titel description : String) : Registry :=
  { param := [], commandLineFlags := [],
    tags := aset "title" titel (aset "description" description []) }

/-! The `CTK_APP_DEFINE_TAG` setters (lines 213-227).  Each stores under the
quoted key of its macro invocation; in particular `setTitel` stores under
`"titel"` and `setDocumentationUrl` under `"documentationUrl"`. -/

def Registry.setCategory (r : Registry) (v : String) : Registry :=
  { r with tags := aset "category" v r.tags }

def Registry.setTitel (r : Registry) (v : String) : Registry :=
  { r with tags := aset "titel" v r.tags }

def Registry.setDescription (r : Registry) (v : String) : Registry :=
  { r with tags := aset "description" v r.tags }

def Registry.setVersion (r : Registry) (v : String) : Registry :=
  { r with tags := aset "version" v r.tags }

def Registry.setDocumentationUrl (r : Registry) (v : String) : Registry :=
  { r with tags := aset "documentationUrl" v r.tags }

def Registry.setLicense (r : Registry) (v : String) : Registry :=
  { r with tags := aset "license" v r.tags }

def Registry.setContributor (r : Registry) (v : String) : Registry :=
  { r with tags := aset "contributor" v r.tags }

def Registry.setAcknowledgements (r : Registry) (v : String) : Registry :=
  { r with tags := aset "acknowledgements" v r.tags }

/-! ### The application-tag portion of `getXMLDescription` (lines 413-434) -/

/-- The fixed order array `app_tags` (lines 417-426). -/
def appTagOrder : List String :=
  ["category", "title", "description", "version", "documentation-url",
   "license", "contributor", "acknowledgements"]

/-- One emitted application-tag line (line 434). -/
def lineFor (t v : String) : String := "  <" ++ t ++ ">" ++ v ++ "</" ++ t ++ ">"

/-- The emission loop, generalized over the order array. -/
def xmlTagLinesOver (order : List String) (tags : List (String × String)) : List String :=
  order.filterMap fun t => (alookup t tags).map fun v => lineFor t v

/-- The loop at lines 432-434: for each entry of the fixed array present in
`tags`, one `  <tag>value</tag>` line. -/
def xmlAppTagLines (tags : List (String × String)) : List String :=
  xmlTagLinesOver appTagOrder tags

/-! ### The ini parser (`ctkCmdLineApplication::parse`, lines 351-375) -/

/-- Split a line at its first `=`: `getline(linestr,key,'=')` then
`getline(linestr,value,'\0')`.  Without any `=` the key getline returns the
whole line (eofbit) and the value getline fails leaving `value` empty. -/
def splitFirstEq : List Char → List Char × List Char
  | [] => ([], [])
  | c :: cs =>
    if c = '=' then ([], cs)
    else
      let r := splitFirstEq cs
      (c :: r.1, r.2)

/-- One loop iteration of `parse` over a line (characters of the line);
the state is (registry, current section).  `none` models the fatal call
`param[list][key]->setString(value)` through the null pointer that
`operator[]` default-constructs for an undeclared `(section,key)`, or a
failing vector `setString`.  The section switch stores
`line.substr(1, line.length()-2)`, i.e. the line without its first and
last characters. -/
def parseIniLineChars (r : Registry) (sec : String) (line : List Char) :
    Option (Registry × String) :=
  if line.length < 2 ∨ line.head? = some '#' then some (r, sec)
  else if line.head? = some '[' then
    some (r, ⟨(line.drop 1).dropLast⟩)
  else
    let kv := splitFirstEq line
    let key : String := ⟨trimChars kv.1⟩
    let value : String := ⟨trimChars kv.2⟩
    match r.getParam sec key with
    | none => none
    | some p => (p.setString value).map fun q => (r.install sec key q, sec)

/-- One loop iteration of `parse` over a line, on `String`. -/
def parseIniLine (st : Registry × String) (line : String) : Option (Registry × String) :=
  parseIniLineChars st.1 st.2 line.data

/-- The `parse` loop over a list of lines, threading (registry, current
section) and aborting at the first fatal line. -/
def parseIniLinesGo (st : Registry × String) : List String → Option (Registry × String)
  | [] => some st
  | line :: rest =>
    match parseIniLine st line with
    | none => none
    | some st' => parseIniLinesGo st' rest

/-- The `parse` loop over an explicit list of lines, starting from a given
current section. -/
def Registry.parseIniLines (r : Registry) (sec : String) (lines : List String) : Option Registry :=
  (parseIniLinesGo (r, sec) lines).map fun st => st.1

/-- `ctkCmdLineApplication::parse` (lines 351-375): the getline-on-`'\n'`
loop visits exactly the `splitOn "\n"` segments of the text (a final empty
segment from a trailing newline is skipped by the `length<2` guard, just as
the failed final getline's erased `line` is), starting in section
`"Global"`. -/
def Registry.parseIni (r : Registry) (ini : String) : Option Registry :=
  r.parseIniLines "Global" (ini.splitOn "\n")

/-! ### `ctkCmdLineApplication::parseCommandLine` (lines 269-347)

The argument array is a `List (Option String)`: slot value `none` is a
`char*` that the scan has set to `0x0` ("mark as handled").  `none` as the
overall result marks a run that leaves defined behaviour (a `std::string`
built from a null `char*`, a call through a null parameter pointer, an
out-of-bounds `argv` read, or a non-terminating compaction).

Unmodelled side effects of the scan: the `--xml`/`--help` text written to
stdout, and the ini file I/O of `--ctk-save-ini`/`--ctk-load-ini` (no claim
exercises those two switches; their token consumption is still modelled
faithfully).  `std::cerr` diagnostics are collected in order. -/

/-- First line of the missing-value diagnostic (lines 294/311). -/
def expectedValueMsg : String := "Expected value but found end of argument list."

/-- The `"Ignored command line argument " << cmd` diagnostic
(lines 295/312/332). -/
def ignoredMsg (cmd : String) : String := "Ignored command line argument " ++ cmd

/-- `cmd[0]=='-'`.  On an empty token, C++11 `operator[]` at `size()`
yields the null character, which is not `'-'`. -/
def startsWithDash (cmd : String) : Bool := cmd.data.head? = some '-'

/-- The scan loop (lines 272-334).  `n = *argc` stays constant during the
scan; `i` is the loop variable, `index` the positional counter.  Every
iteration advances `i` by at least one, so fuel `n + 1` always suffices. -/
def scanGo (n : Nat) : Nat → Registry → List (Option String) → Nat → Nat → List String →
    Option (Registry × List (Option String) × List String)
  | 0, _, _, _, _, _ => none
  | fuel + 1, r, argv, i, index, diags =>
    if i < n then
      match argv.getD i none with
      | none => none
      | some cmd =>
        if cmd = "--xml" then
          scanGo n fuel r (argv.set i none) (i + 1) index diags
        else if cmd = "--help" || cmd = "-h" then
          scanGo n fuel r (argv.set i none) (i + 1) index diags
        else if cmd = "--ctk-save-ini" || cmd = "--ctk-load-ini" then
          if i = n - 1 then
            some (r, argv, diags ++ [expectedValueMsg, ignoredMsg cmd])
          else
            match argv.getD (i + 1) none with
            | none => none
            | some _fileName => scanGo n fuel r (argv.set i none) (i + 2) index diags
        else
          if startsWithDash cmd && decide (i = n - 1) then
            some (r, argv, diags ++ [expectedValueMsg, ignoredMsg cmd])
          else
            let flagged := startsWithDash cmd
            let argv1 := if flagged then argv.set i none else argv
            let lookupKey := if flagged then cmd else intToString (index : Int)
            let index1 := if flagged then index else index + 1
            match alookup lookupKey r.commandLineFlags with
            | some sk =>
              match r.getParam sk.1 sk.2 with
              | none => none
              | some p =>
                if p.getType = "boolean" then
                  match p.setString (boolToString (!(stringToBool p.getString))) with
                  | none => none
                  | some p' => scanGo n fuel (r.install sk.1 sk.2 p') argv1 (i + 1) index1 diags
                else
                  match argv1.getD i none with
                  | none => none
                  | some a =>
                    match p.setString a with
                    | none => none
                    | some p' => scanGo n fuel (r.install sk.1 sk.2 p') argv1 (i + 1) index1 diags
            | none =>
              scanGo n fuel r argv1 (i + 1) index1
                (if flagged then diags ++ [ignoredMsg cmd] else diags)
    else some (r, argv, diags)

/-- One `argv` read during compaction: index `j < n` reads the array,
`j = n` reads the null pointer that the C runtime places after `main`'s
argument vector, and `j > n` is an out-of-bounds read (undefined). -/
def argvRead (argv : List (Option String)) (j : Nat) : Option (Option String) :=
  if j < argv.length then some (argv.getD j none)
  else if j = argv.length then some none
  else none

/-- The compaction loop (lines 336-345):

```cpp
int handled=0;
for (int i=0;i<*argc;i++)
 if (argv[i]==0x0) { handled++; argv[i]=argv[i+handled]; i--; }
```

(the `i--` followed by the loop's `i++` re-examines the same slot). -/
def compactGo : Nat → List (Option String) → Nat → Nat → Option (List (Option String) × Nat)
  | 0, _, _, _ => none
  | fuel + 1, argv, i, handled =>
    if i < argv.length then
      match argv.getD i none with
      | some _ => compactGo fuel argv (i + 1) handled
      | none =>
        match argvRead argv (i + (handled + 1)) with
        | none => none
        | some v => compactGo fuel (argv.set i v) i (handled + 1)
    else some (argv, handled)

/-- The caller-visible outcome of a `parseCommandLine` run. -/
structure ScanResult where
  /-- the registry afterwards -/
  reg : Registry
  /-- the argument array afterwards -/
  argv : List (Option String)
  /-- the value of `*argc` afterwards -/
  argcOut : Nat
  /-- the `std::cerr` diagnostics, in order -/
  diags : List String
  deriving Repr, DecidableEq

/-- `ctkCmdLineApplication::parseCommandLine` (lines 269-347): the scan,
then the compaction.  The final source statement `argc-=handled;`
(line 346) subtracts from the pointer `argc` itself (an `int*`), not from
`*argc`, so the count the caller sees is the unchanged `n`. -/
def Registry.parseCommandLine (r : Registry) (argv : List (Option String)) :
    Option ScanResult :=
  let n := argv.length
  match scanGo n (n + 1) r argv 0 0 [] with
  | none => none
  | some (r1, argv1, diags) =>
    match compactGo ((n + 2) * (n + 2)) argv1 0 0 with
    | none => none
    | some (argv2, _) => some ⟨r1, argv2, n, diags⟩

/-! ### The identity string conversions (`StringUtil.hxx` lines 25-26) -/

/-- `toString<std::string>`: identity. -/
def strToString (s : String) : String := s

/-- `stringTo<std::string>`: identity. -/
def strFromString (s : String) : String := s

/-! ### Structured ini data and its rendering (for the claims about `parse`) -/

/-- Render structured ini data as the line list `parse` consumes: a
`[section]` header followed by `key = value` lines, per section. -/
def renderIniLines : List (String × List (String × String)) → List String
  | [] => []
  | sv :: rest =>
    ("[" ++ sv.1 ++ "]")
      :: ((sv.2.map fun kv => kv.1 ++ " = " ++ kv.2) ++ renderIniLines rest)

/-- The per-line effect of `parse` on one section's `key = value` pairs:
look the parameter up at (section, key) — fatally `none` when it was never
declared — and otherwise apply the value via `setString`. -/
def applyKVs (r : Registry) (s : String) : List (String × String) → Option Registry
  | [] => some r
  | kv :: rest =>
    match r.getParam s kv.1 with
    | none => none
    | some p =>
      match p.setString kv.2 with
      | none => none
      | some q => applyKVs (r.install s kv.1 q) s rest

/-- The per-line effect of `parse` stated over the structured data,
section by section. -/
def applyIniData (r : Registry) : List (String × List (String × String)) → Option Registry
  | [] => some r
  | sv :: rest =>
    match applyKVs r sv.1 sv.2 with
    | none => none
    | some r' => applyIniData r' rest

/-- Keys that survive the `key = value` rendering and re-parsing untouched:
nonempty, not starting the line as a comment or section header, free of
`=`, and not trimmed at either end. -/
def GoodKey (k : List Char) : Prop :=
  k ≠ [] ∧ k.headD ' ' ≠ '#' ∧ k.headD ' ' ≠ '['
    ∧ (∀ c ∈ k, c ≠ '=') ∧ isTrimWS (k.headD ' ') = false
    ∧ isTrimWS (k.getLastD ' ') = false

instance (k : List Char) : Decidable (GoodKey k) := by
  unfold GoodKey
  infer_instance

/-- Values that survive the rendering and re-parsing untouched: empty, or
not trimmed at either end. -/
def GoodVal (v : List Char) : Prop :=
  v = [] ∨ (isTrimWS (v.headD ' ') = false ∧ isTrimWS (v.getLastD ' ') = false)

instance (v : List Char) : Decidable (GoodVal v) := by
  unfold GoodVal
  infer_instance

/-! ### Concrete registries used by the claims' concrete runs -/

/-- A registry with one boolean parameter `("P","b")` holding `b`, bound to
the flag `--bool-param`. -/
def boolReg (b : Bool) : Registry :=
  { param := [("P", [("b", .pBool b)])],
    commandLineFlags := [("--bool-param", ("P", "b"))], tags := [] }

/-- A registry with one string parameter `("S","speed")`, bound to the flag
`--speed`. -/
def strReg : Registry :=
  { param := [("S", [("speed", .pStr "")])],
    commandLineFlags := [("--speed", ("S", "speed"))], tags := [] }

/-- A registry with no parameters and no flag bindings. -/
def emptyReg : Registry := { param := [], commandLineFlags := [], tags := [] }

/-- A registry with one integer parameter `("S","k")` holding 5. -/
def reg7 : Registry :=
  { param := [("S", [("k", .pInt 5)])], commandLineFlags := [], tags := [] }

/-- A registry with one integer parameter `("S","k")` holding 0. -/
def reg8 : Registry :=
  { param := [("S", [("k", .pInt 0)])], commandLineFlags := [], tags := [] }

/-- The application after the constructor (`"T"`, `"D"`) followed by
`setDocumentationUrl("http://u")`. -/
def reg9 : Registry := (mkApplication "T" "D").setDocumentationUrl "http://u"

/-!
## Theorems

First the concrete-run theorems for the command-line scanner and the
vector conversion, then the general lemmas and theorems about the string
round-trips, `setParam`, the ini parser and the XML application tags.
-/

/-- C1: a non-boolean flag's value assignment runs `p->setString(argv[i])`
*after* `argv[i]=0x0` nulled the very slot it reads (lines 315 and 329), so
the run constructs `std::string` from a null `char*` — undefined behaviour —
and the token following the flag is never assigned to the parameter.  The
model run on the flag `--speed` bound to a string parameter, with argument
array `["--speed", "123"]`, aborts at that undefined read. -/
theorem flag_value_run_is_undefined :
    strReg.parseCommandLine [some "--speed", some "123"] = none := by decide

/-- C2: after the scan of `["--bool-param", "x", "y"]` (the flag consumed,
`x`/`y` unmatched positionals), the caller sees `*argc = 3` — the closing
statement `argc-=handled;` (line 346) subtracts from the pointer `argc`,
not from `*argc` — and the compaction loop (lines 337-345) turns the array
into `["x", "x", "y"]` rather than the order-preserving remainder
`["x", "y"]`: pulling `argv[1]` into slot 0 leaves a stale copy at slot 1
that the loop then keeps. -/
theorem compaction_count_unchanged_run :
    (boolReg true).parseCommandLine [some "--bool-param", some "x", some "y"]
      = some ⟨boolReg false, [some "x", some "x", some "y"], 3, []⟩ := by decide

/-- C3 counterexample: scanning `["--bool-param"]` against a boolean
parameter initially `true` does *not* yield value `false` and an empty
argv: every `-` token, booleans included, first passes the
`i==*argc-1` lookahead check (lines 309-314), so the lone flag triggers the
expected-value diagnostic, the scan breaks before the toggle, and both the
value and the argument array are left unchanged. -/
theorem lone_bool_flag_not_toggled :
    (boolReg true).parseCommandLine [some "--bool-param"]
        = some ⟨boolReg true, [some "--bool-param"], 1,
                [expectedValueMsg, ignoredMsg "--bool-param"]⟩
      ∧ ((boolReg true).parseCommandLine [some "--bool-param"]).map ScanResult.argv
          ≠ some []
      ∧ ((boolReg true).parseCommandLine [some "--bool-param"]).map
            (fun res => res.reg.getParam "P" "b")
          ≠ some (some (.pBool false)) := by decide

/-- C3 amended: a boolean parameter's flag toggles the stored value and
does not assign the following token's content — provided a following token
exists; the boolean flag's own slot is consumed while the follower stays
(and is duplicated by the faulty compaction).  A boolean flag that is the
last token fails the lookahead check: the scan aborts with the
expected-value diagnostic and leaves the value and the array unchanged. -/
theorem bool_flag_toggle_amended :
    ∀ b : Bool,
      (boolReg b).parseCommandLine [some "--bool-param", some "z"]
          = some ⟨boolReg (!b), [some "z", some "z"], 2, []⟩
      ∧ (boolReg b).parseCommandLine [some "--bool-param"]
          = some ⟨boolReg b, [some "--bool-param"], 1,
                  [expectedValueMsg, ignoredMsg "--bool-param"]⟩ := by
  intro b
  cases b <;> exact ⟨by decide, by decide⟩

/-- C4 counterexample: scanning `["--not-a-flag", "x"]` does emit the
diagnostic, but `--not-a-flag` does not remain in the argument array: its
slot was set to `0x0` (line 315) *before* the unknown-flag check
(line 331), so compaction removes it, while `x` (an unmatched positional)
is never marked and stays — duplicated into both surviving slots by the
faulty compaction, with the count still 2. -/
theorem unknown_flag_not_retained :
    emptyReg.parseCommandLine [some "--not-a-flag", some "x"]
        = some ⟨emptyReg, [some "x", some "x"], 2, [ignoredMsg "--not-a-flag"]⟩
      ∧ (emptyReg.parseCommandLine [some "--not-a-flag", some "x"]).map
            (fun res => res.argv.contains (some "--not-a-flag"))
          ≠ some true := by decide

/-- C4 amended: an unmatched flag token produces the ignored-argument
diagnostic but its slot has already been marked consumed, so it is removed
from the array (the token after it stays, duplicated by the faulty
compaction); an unmatched positional token is skipped silently — no
diagnostic — and left in place. -/
theorem unknown_flag_diagnostic_amended :
    emptyReg.parseCommandLine [some "--not-a-flag", some "x"]
        = some ⟨emptyReg, [some "x", some "x"], 2, [ignoredMsg "--not-a-flag"]⟩
      ∧ emptyReg.parseCommandLine [some "x"]
        = some ⟨emptyReg, [some "x"], 1, []⟩ := by decide

/-- C5: the comma-split vector conversion parses `"1,2,3,4"` to
`[1,2,3,4]`, but `"1,2,3,"` parses to `[1,2]`, not `[1,2,3]`: the final
`getline` fails at end-of-data *without* pushing an empty token and erases
`item`, so the `if (item.empty()) ret.pop_back()` guard (line 52 of
`StringUtil.hxx`) discards the parsed `3` instead of a trailing empty token. -/
theorem vector_parse_trailing_comma_run :
    stringToIntVector "1,2,3,4" = some [1, 2, 3, 4]
      ∧ stringToIntVector "1,2,3," = some [1, 2] := by decide

/-! ### Decimal round-trip lemmas -/

theorem ofDigitsLE_cons (d : Nat) (ds : List Nat) :
    ofDigitsLE (d :: ds) = 10 * ofDigitsLE ds + d := rfl

theorem ofDigitsLE_natDigitsGo :
    ∀ fuel n : Nat, n ≤ fuel → ofDigitsLE (natDigitsGo fuel n) = n := by
  intro fuel
  induction fuel with
  | zero => intro n hn; interval_cases n; rfl
  | succ f ih =>
    intro n hn
    cases n with
    | zero => rfl
    | succ m =>
      have h1 : (m + 1) / 10 ≤ f := by
        have := Nat.div_lt_self (Nat.succ_pos m) (by norm_num : 1 < 10)
        omega
      simp only [natDigitsGo, ofDigitsLE_cons, ih _ h1]
      omega

theorem natDigitsGo_lt_ten :
    ∀ fuel n : Nat, ∀ d ∈ natDigitsGo fuel n, d < 10 := by
  intro fuel
  induction fuel with
  | zero => intro n d hd; simp [natDigitsGo] at hd
  | succ f ih =>
    intro n d hd
    cases n with
    | zero => simp [natDigitsGo] at hd
    | succ m =>
      simp only [natDigitsGo, List.mem_cons] at hd
      rcases hd with rfl | hd
      · exact Nat.mod_lt _ (by norm_num)
      · exact ih _ _ hd

theorem charToDigit_digitToChar {d : Nat} (hd : d < 10) :
    charToDigit (digitToChar d) = d := by
  interval_cases d <;> rfl

theorem isDigitCh_digitToChar {d : Nat} (hd : d < 10) :
    isDigitCh (digitToChar d) = true := by
  interval_cases d <;> rfl

theorem parseNatChars_append (l : List Char) (c : Char) :
    parseNatChars (l ++ [c]) = 10 * parseNatChars l + charToDigit c := by
  simp [parseNatChars, List.foldl_append]

theorem parseNatChars_digits :
    ∀ ds : List Nat, (∀ d ∈ ds, d < 10) →
      parseNatChars ((ds.map digitToChar).reverse) = ofDigitsLE ds := by
  intro ds
  induction ds with
  | nil => intro _; rfl
  | cons d ds ih =>
    intro h
    simp only [List.map_cons, List.reverse_cons]
    rw [parseNatChars_append, ih fun x hx => h x (List.mem_cons_of_mem _ hx),
        charToDigit_digitToChar (h d (List.mem_cons_self _ _)), ofDigitsLE_cons]

theorem natToChars_ne_nil (n : Nat) : natToChars n ≠ [] := by
  unfold natToChars
  split
  · simp
  · rename_i hn
    cases n with
    | zero => exact absurd rfl hn
    | succ m => simp [natDigits, natDigitsGo]

theorem natToChars_all_digits (n : Nat) : ∀ c ∈ natToChars n, isDigitCh c = true := by
  intro c hc
  unfold natToChars at hc
  split at hc
  · simp only [List.mem_singleton] at hc; subst hc; rfl
  · simp only [List.mem_reverse, List.mem_map] at hc
    obtain ⟨d, hd, rfl⟩ := hc
    exact isDigitCh_digitToChar (natDigitsGo_lt_ten n n _ hd)

theorem parseNatChars_natToChars (n : Nat) : parseNatChars (natToChars n) = n := by
  unfold natToChars
  split
  · rename_i h; subst h; rfl
  · simp only [natDigits]
    rw [parseNatChars_digits _ (natDigitsGo_lt_ten n n)]
    exact ofDigitsLE_natDigitsGo n n le_rfl

theorem ws_false_of_digit {c : Char} (h : isDigitCh c = true) : isStreamWS c = false := by
  unfold isStreamWS
  by_contra hw
  simp only [Bool.not_eq_false, Bool.or_eq_true, decide_eq_true_eq] at hw
  rcases hw with ((rfl | rfl) | rfl) | rfl <;> exact absurd h (by decide)

theorem ne_signs_of_digit {c : Char} (h : isDigitCh c = true) :
    c ≠ '-' ∧ c ≠ '+' ∧ c ≠ ',' := by
  refine ⟨?_, ?_, ?_⟩ <;> rintro rfl <;> exact absurd h (by decide)

theorem takeWhile_eq_self {p : Char → Bool} :
    ∀ l : List Char, (∀ c ∈ l, p c = true) → l.takeWhile p = l := by
  intro l
  induction l with
  | nil => intro _; rfl
  | cons c cs ih =>
    intro h
    simp [List.takeWhile_cons, h c (List.mem_cons_self _ _),
      ih fun x hx => h x (List.mem_cons_of_mem _ hx)]

theorem dropWhile_cons_false {p : Char → Bool} (c : Char) (cs : List Char)
    (h : p c = false) : (c :: cs).dropWhile p = c :: cs := by
  simp [List.dropWhile_cons, h]

/-- The decimal round-trip at character level: `istringstream >>` inverts
`ostringstream <<` for every integer. -/
theorem parseIntChars_intToChars (x : Int) : parseIntChars (intToChars x) = x := by
  unfold intToChars
  split
  · rename_i hx
    have hd : ('-' :: natToChars x.natAbs).dropWhile isStreamWS
        = '-' :: natToChars x.natAbs := dropWhile_cons_false _ _ (by decide)
    unfold parseIntChars
    rw [hd]
    simp only [reduceIte]
    rw [takeWhile_eq_self _ (natToChars_all_digits _), parseNatChars_natToChars]
    omega
  · rename_i hx
    cases hc : natToChars x.natAbs with
    | nil => exact absurd hc (natToChars_ne_nil _)
    | cons c r =>
      have hcd : isDigitCh c = true :=
        natToChars_all_digits _ c (hc ▸ List.mem_cons_self _ _)
      have hall : ∀ a ∈ c :: r, isDigitCh a = true := hc ▸ natToChars_all_digits _
      simp only [parseIntChars, dropWhile_cons_false _ _ (ws_false_of_digit hcd)]
      rw [if_neg (ne_signs_of_digit hcd).1, if_neg (ne_signs_of_digit hcd).2.1]
      rw [takeWhile_eq_self _ hall, ← hc, parseNatChars_natToChars]
      omega

/-- The decimal round-trip at `String` level. -/
theorem stringToInt_intToString (x : Int) : stringToInt (intToString x) = x :=
  parseIntChars_intToChars x

/-! ### Vector round-trip lemmas -/

theorem splitOnChar_ne_nil (d : Char) : ∀ l, splitOnChar d l ≠ [] := by
  intro l
  induction l with
  | nil => simp [splitOnChar]
  | cons c cs ih =>
    simp only [splitOnChar]
    cases h : splitOnChar d cs with
    | nil => exact absurd h ih
    | cons t ts => by_cases hcd : c = d <;> simp [hcd]

theorem splitOnChar_no_delim (d : Char) :
    ∀ a : List Char, (∀ c ∈ a, c ≠ d) → splitOnChar d a = [a] := by
  intro a
  induction a with
  | nil => intro _; rfl
  | cons c cs ih =>
    intro h
    simp only [splitOnChar, ih fun x hx => h x (List.mem_cons_of_mem _ hx)]
    rw [if_neg (h c (List.mem_cons_self _ _))]

theorem splitOnChar_append (d : Char) :
    ∀ a rest : List Char, (∀ c ∈ a, c ≠ d) →
      splitOnChar d (a ++ d :: rest) = a :: splitOnChar d rest := by
  intro a
  induction a with
  | nil =>
    intro rest _
    simp only [List.nil_append, splitOnChar]
    cases h : splitOnChar d rest with
    | nil => exact absurd h (splitOnChar_ne_nil d rest)
    | cons t ts => simp
  | cons c a' ih =>
    intro rest h
    rw [List.cons_append]
    simp only [splitOnChar, List.append_eq,
      ih rest fun x hx => h x (List.mem_cons_of_mem _ hx)]
    simp [h c (List.mem_cons_self _ _)]

theorem foldl_joinTail (f : α → List Char) :
    ∀ (xs : List α) (acc : List Char),
      xs.foldl (fun a y => a ++ [','] ++ f y) acc = acc ++ joinTail f xs := by
  intro xs
  induction xs with
  | nil => intro acc; simp [joinTail]
  | cons y ys ih =>
    intro acc
    simp only [List.foldl_cons, ih, joinTail]
    simp [List.append_assoc]

/-- `vectortoString` of a nonempty vector, in structural form. -/
theorem vectorToStringChars_cons (f : α → List Char) (x : α) (xs : List α) :
    vectorToStringChars f [','] (x :: xs) = f x ++ joinTail f xs :=
  foldl_joinTail f xs (f x)

theorem intToChars_ne_nil (x : Int) : intToChars x ≠ [] := by
  unfold intToChars
  split
  · simp
  · exact natToChars_ne_nil _

theorem intToChars_no_comma (x : Int) : ∀ c ∈ intToChars x, c ≠ ',' := by
  intro c hc
  unfold intToChars at hc
  split at hc
  · rcases List.mem_cons.1 hc with rfl | hc
    · decide
    · exact (ne_signs_of_digit (natToChars_all_digits _ c hc)).2.2
  · exact (ne_signs_of_digit (natToChars_all_digits _ c hc)).2.2

theorem intToChars_last_digit (x : Int) :
    ∃ c, (intToChars x).getLast? = some c ∧ isDigitCh c = true := by
  have hne := natToChars_ne_nil x.natAbs
  refine ⟨(natToChars x.natAbs).getLast hne, ?_, ?_⟩
  · unfold intToChars
    split
    · show (['-'] ++ natToChars x.natAbs).getLast? = _
      rw [List.getLast?_append, List.getLast?_eq_getLast _ hne]
      rfl
    · exact List.getLast?_eq_getLast _ hne
  · exact natToChars_all_digits _ _ (List.getLast_mem hne)

theorem vec_last_digit :
    ∀ (xs : List Int) (x : Int),
      ∃ c, (intToChars x ++ joinTail intToChars xs).getLast? = some c
        ∧ isDigitCh c = true := by
  intro xs
  induction xs with
  | nil =>
    intro x
    simp only [joinTail, List.append_nil]
    exact intToChars_last_digit x
  | cons y ys ih =>
    intro x
    obtain ⟨c, hc, hcd⟩ := ih y
    refine ⟨c, ?_, hcd⟩
    show (intToChars x ++ (',' :: (intToChars y ++ joinTail intToChars ys))).getLast? = _
    rw [List.getLast?_append]
    have : (',' :: (intToChars y ++ joinTail intToChars ys)).getLast? = some c := by
      show ([','] ++ (intToChars y ++ joinTail intToChars ys)).getLast? = some c
      rw [List.getLast?_append, hc]
      rfl
    rw [this]
    rfl

theorem splitOnChar_joined :
    ∀ (xs : List Int) (x : Int),
      splitOnChar ',' (intToChars x ++ joinTail intToChars xs)
        = (x :: xs).map intToChars := by
  intro xs
  induction xs with
  | nil =>
    intro x
    simp only [joinTail, List.append_nil, List.map_cons, List.map_nil]
    exact splitOnChar_no_delim ',' _ (intToChars_no_comma x)
  | cons y ys ih =>
    intro x
    show splitOnChar ',' (intToChars x ++ (',' :: (intToChars y ++ joinTail intToChars ys)))
        = _
    rw [splitOnChar_append ',' _ _ (intToChars_no_comma x), ih y]
    rfl

/-- The vector round-trip for nonempty integer vectors. -/
theorem stringToIntVector_roundtrip (x : Int) (xs : List Int) :
    stringToIntVector (intVectorToString (x :: xs)) = some (x :: xs) := by
  have hform : (intVectorToString (x :: xs)).data
      = intToChars x ++ joinTail intToChars xs := vectorToStringChars_cons _ x xs
  obtain ⟨c, hlast, hcd⟩ := vec_last_digit xs x
  have hne : intToChars x ++ joinTail intToChars xs ≠ [] := by
    intro he
    rw [he] at hlast
    simp at hlast
  have hend : endsWithChar ',' (intToChars x ++ joinTail intToChars xs) = false := by
    unfold endsWithChar
    rw [hlast]
    simp [(ne_signs_of_digit hcd).2.2]
  have hemp : (intToChars x ++ joinTail intToChars xs).isEmpty = false := by
    cases hcc : intToChars x ++ joinTail intToChars xs with
    | nil => exact absurd hcc hne
    | cons a b => rfl
  unfold stringToIntVector
  rw [hform]
  simp only [stringToVectorChars, getlineTokens, lastItemEmpty, hend, hemp, hne,
    Bool.or_false, Bool.false_eq_true, if_false]
  rw [splitOnChar_joined xs x]
  simp [List.map_map, Function.comp_def, parseIntChars_intToChars]

/-- C6 counterexample: the round-trip law fails for the empty integer
vector: `toString` renders it as `""`, and parsing `""` back reaches
`pop_back` on an empty vector (undefined behaviour) instead of returning
the empty vector. -/
theorem roundtrip_fails_empty_vector :
    intVectorToString ([] : List Int) = ""
      ∧ stringToIntVector (intVectorToString ([] : List Int)) = none
      ∧ stringToIntVector (intVectorToString ([] : List Int)) ≠ some ([] : List Int) := by
  exact ⟨rfl, rfl, by decide⟩

/-- C6 amended: the string round-trip law `stringTo<T>(toString<T>(x)) = x`
holds for the scalar types bool, int and string at every value, and for
integer vectors at every *nonempty* vector; it fails at the empty vector
(whose rendering `""` makes the parse hit the undefined `pop_back`).
Float and double are outside this embedding (IEEE-754 stream formatting);
string vectors fail for elements containing the comma separator. -/
theorem string_roundtrip_amended :
    (∀ b : Bool, stringToBool (boolToString b) = b)
      ∧ (∀ x : Int, stringToInt (intToString x) = x)
      ∧ (∀ s : String, strFromString (strToString s) = s)
      ∧ (∀ v : List Int, v ≠ [] → stringToIntVector (intVectorToString v) = some v) := by
  refine ⟨?_, stringToInt_intToString, fun s => rfl, ?_⟩
  · intro b; cases b <;> decide
  · intro v hv
    cases v with
    | nil => exact absurd rfl hv
    | cons x xs => exact stringToIntVector_roundtrip x xs

/-- C6 amended witness at the concrete vector `[1, 2]`. -/
theorem string_roundtrip_amended_witness :
    ([1, 2] : List Int) ≠ []
      ∧ stringToIntVector (intVectorToString [1, 2]) = some [1, 2] :=
  ⟨by decide, string_roundtrip_amended.2.2.2 [1, 2] (by decide)⟩

/-! ### Association-list lemmas -/

theorem alookup_aset_self (k : String) (v : α) :
    ∀ l : List (String × α), alookup k (aset k v l) = some v := by
  intro l
  induction l with
  | nil => simp [aset, alookup]
  | cons p rest ih =>
    obtain ⟨k', v'⟩ := p
    by_cases h : k' = k
    · simp [aset, alookup, h]
    · simp [aset, alookup, h, ih]

theorem alookup_aset_ne (k k' : String) (v : α) (hne : k' ≠ k) :
    ∀ l : List (String × α), alookup k (aset k' v l) = alookup k l := by
  intro l
  induction l with
  | nil => simp [aset, alookup, hne]
  | cons p rest ih =>
    obtain ⟨k'', v''⟩ := p
    by_cases h : k'' = k'
    · subst h
      simp [aset, alookup, hne]
    · simp [aset, alookup, h, ih]

/-- C7: `setParam(section,key,newValue)` installs `newValue` as the
Parameter at that pair; when a Parameter already existed there, its string
representation is captured before the old instance is released, and it is
reapplied to the new instance via `setString` exactly when that captured
string is nonempty (lines 252-265). -/
theorem setParam_preserves_string :
    ∀ (r : Registry) (s k : String) (p : PValue),
      (∀ q, (r.install s k q).getParam s k = some q)
      ∧ (r.getParam s k = none → r.setParam s k p = some (r.install s k p))
      ∧ (∀ old, r.getParam s k = some old → old.getString = "" →
          r.setParam s k p = some (r.install s k p))
      ∧ (∀ old, r.getParam s k = some old → old.getString ≠ "" →
          r.setParam s k p
            = (p.setString old.getString).map fun q => r.install s k q) := by
  intro r s k p
  refine ⟨?_, ?_, ?_, ?_⟩
  · intro q
    unfold Registry.getParam Registry.install
    simp [alookup_aset_self]
  · intro h
    simp [Registry.setParam, h]
  · intro old hold hstr
    simp [Registry.setParam, hold, hstr]
  · intro old hold hstr
    simp only [Registry.setParam, hold]
    rw [if_neg hstr]

/-- C7 witness: replacing the integer parameter `("S","k")` (holding 5)
with a string parameter re-applies the captured string `"5"`. -/
theorem setParam_preserves_string_witness :
    reg7.setParam "S" "k" (.pStr "x") = some (reg7.install "S" "k" (.pStr "5")) := by
  have h := (setParam_preserves_string reg7 "S" "k" (.pStr "x")).2.2.2
    (.pInt 5) (by decide) (by decide)
  rw [h]
  decide

/-! ### XML application-tag lemmas -/

theorem xmlTagLinesOver_congr :
    ∀ (order : List String) (tags tags' : List (String × String)),
      (∀ t ∈ order, alookup t tags = alookup t tags') →
      xmlTagLinesOver order tags = xmlTagLinesOver order tags' := by
  intro order
  induction order with
  | nil => intro _ _ _; rfl
  | cons t ord ih =>
    intro tags tags' h
    have ht := h t (List.mem_cons_self _ _)
    have hrest := ih tags tags' fun u hu => h u (List.mem_cons_of_mem _ hu)
    simp only [xmlTagLinesOver, List.filterMap_cons] at hrest ⊢
    rw [ht, hrest]

theorem xmlTagLinesOver_eq_filter :
    ∀ (order : List String) (tags : List (String × String)),
      xmlTagLinesOver order tags
        = (order.filter fun t => (alookup t tags).isSome).map
            fun t => lineFor t ((alookup t tags).getD "") := by
  intro order tags
  induction order with
  | nil => rfl
  | cons t ord ih =>
    simp only [xmlTagLinesOver, List.filterMap_cons, List.filter_cons] at ih ⊢
    cases h : alookup t tags <;> simp [h, ih]

/-- C9 counterexample: after `setDocumentationUrl("http://u")` on the
freshly constructed application, the tag map holds the value under
`"documentationUrl"`, yet the emitted application-tag lines contain no
`documentation-url` element: the emitter looks up `"documentation-url"`
(lines 417-426), a key the setter (line 223) never writes. -/
theorem setDocumentationUrl_omitted :
    xmlAppTagLines reg9.tags
        = ["  <title>T</title>", "  <description>D</description>"]
      ∧ alookup "documentationUrl" reg9.tags = some "http://u"
      ∧ lineFor "documentation-url" "http://u" ∉ xmlAppTagLines reg9.tags := by
  exact ⟨by decide, by decide, by decide⟩

/-- C9 amended: the application-tag emission depends only on the tag map's
content at the eight canonical keys and produces exactly one line per
present key, in the fixed canonical order (category, title, description,
version, documentation-url, license, contributor, acknowledgements),
omitting absent keys entirely — but two setters store under keys the
emitter never reads: `setTitel` writes `"titel"` and `setDocumentationUrl`
writes `"documentationUrl"`, so values set through them never appear (the
emitted title can only come from the constructor's `"title"` entry), while
the other six setters store under the emitted keys. -/
theorem xml_app_tags_amended :
    (∀ tags : List (String × String),
        xmlAppTagLines tags
          = (appTagOrder.filter fun t => (alookup t tags).isSome).map
              fun t => lineFor t ((alookup t tags).getD ""))
      ∧ (∀ (r : Registry) (v : String),
          xmlAppTagLines (r.setTitel v).tags = xmlAppTagLines r.tags)
      ∧ (∀ (r : Registry) (v : String),
          xmlAppTagLines (r.setDocumentationUrl v).tags = xmlAppTagLines r.tags)
      ∧ (∀ (r : Registry) (v : String),
          alookup "category" (r.setCategory v).tags = some v
            ∧ alookup "title" (mkApplication v "d").tags = some v
            ∧ alookup "description" (r.setDescription v).tags = some v
            ∧ alookup "version" (r.setVersion v).tags = some v
            ∧ alookup "license" (r.setLicense v).tags = some v
            ∧ alookup "contributor" (r.setContributor v).tags = some v
            ∧ alookup "acknowledgements" (r.setAcknowledgements v).tags = some v) := by
  refine ⟨fun tags => xmlTagLinesOver_eq_filter appTagOrder tags, ?_, ?_, ?_⟩
  · intro r v
    exact xmlTagLinesOver_congr appTagOrder _ _ fun t ht => by
      fin_cases ht <;> exact alookup_aset_ne _ _ _ (by decide) _
  · intro r v
    exact xmlTagLinesOver_congr appTagOrder _ _ fun t ht => by
      fin_cases ht <;> exact alookup_aset_ne _ _ _ (by decide) _
  · intro r v
    exact ⟨alookup_aset_self _ _ _, alookup_aset_self _ _ _, alookup_aset_self _ _ _,
      alookup_aset_self _ _ _, alookup_aset_self _ _ _, alookup_aset_self _ _ _,
      alookup_aset_self _ _ _⟩

/-- C10: converting the empty string to a vector value reaches the
trailing-empty-token guard with an empty result vector (the first `getline`
fails immediately, erasing `item`), so `ret.pop_back()` executes on an
empty vector: the error branch is reachable, for every vector-typed
parameter, from `setString("")`. -/
theorem vector_setString_empty_undefined :
    ∀ (vi : List Int) (vs : List String),
      (PValue.pIntVec vi).setString "" = none
        ∧ (PValue.pStrVec vs).setString "" = none := by
  intro vi vs
  exact ⟨rfl, rfl⟩

/-! ### Ini rendering and parsing lemmas -/

theorem data_append (a b : String) : (a ++ b).data = a.data ++ b.data := by
  cases a; cases b; rfl

theorem mk_data (s : String) : (⟨s.data⟩ : String) = s := by cases s; rfl

theorem dropWhile_eq_self_of_head {p : Char → Bool} :
    ∀ l : List Char, (∀ a, l.head? = some a → p a = false) → l.dropWhile p = l := by
  intro l h
  cases l with
  | nil => rfl
  | cons c cs => exact dropWhile_cons_false c cs (h c rfl)

theorem rtrim_reverse_eq (l : List Char)
    (h2 : ∀ a, l.getLast? = some a → isTrimWS a = false) :
    (l.reverse.dropWhile isTrimWS).reverse = l := by
  rw [dropWhile_eq_self_of_head l.reverse
      fun a ha => h2 a (by rwa [List.head?_reverse] at ha)]
  exact List.reverse_reverse l

theorem getLast?_of_getLastD (l : List Char) (hne : l ≠ []) :
    l.getLast? = some (l.getLastD ' ') := by
  cases hl : l.getLast? with
  | none => exact absurd (List.getLast?_eq_none_iff.mp hl) hne
  | some a =>
    cases l with
    | nil => exact absurd rfl hne
    | cons c cs => rw [List.getLastD_eq_getLast?, hl]; rfl

theorem dropWhile_cons_true {p : Char → Bool} (c : Char) (cs : List Char)
    (h : p c = true) : (c :: cs).dropWhile p = cs.dropWhile p := by
  simp [List.dropWhile_cons, h]

theorem trimChars_key (k : List Char) (hk : GoodKey k) : trimChars (k ++ [' ']) = k := by
  obtain ⟨hne, _, _, _, hh, hl⟩ := hk
  cases k with
  | nil => exact absurd rfl hne
  | cons c k' =>
    have hh' : isTrimWS c = false := hh
    unfold trimChars
    rw [List.cons_append, dropWhile_cons_false _ _ hh', ← List.cons_append]
    rw [List.reverse_concat]
    rw [dropWhile_cons_true ' ' _ (by decide)]
    exact rtrim_reverse_eq (c :: k') fun a ha => by
      rw [getLast?_of_getLastD _ (by simp)] at ha
      injection ha with h3
      rw [← h3]
      exact hl

theorem trimChars_val (v : List Char) (hv : GoodVal v) : trimChars (' ' :: v) = v := by
  rcases hv with rfl | ⟨hh, hl⟩
  · rfl
  · cases v with
    | nil => rfl
    | cons c v' =>
      have hh' : isTrimWS c = false := hh
      unfold trimChars
      rw [dropWhile_cons_true ' ' _ (by decide)]
      rw [dropWhile_cons_false _ _ hh']
      exact rtrim_reverse_eq (c :: v') fun a ha => by
        rw [getLast?_of_getLastD _ (by simp)] at ha
        injection ha with h3
        rw [← h3]
        exact hl

theorem splitFirstEq_append (a rest : List Char) (h : ∀ c ∈ a, c ≠ '=') :
    splitFirstEq (a ++ '=' :: rest) = (a, rest) := by
  induction a with
  | nil => simp [splitFirstEq]
  | cons c a' ih =>
    simp only [List.cons_append, splitFirstEq, List.append_eq,
      ih fun x hx => h x (List.mem_cons_of_mem _ hx)]
    rw [if_neg (h c (List.mem_cons_self _ _))]

/-- Processing a rendered `[section]` header line switches the section. -/
theorem parseIniLineChars_section (r : Registry) (sec s : String) :
    parseIniLineChars r sec ('[' :: (s.data ++ [']'])) = some (r, s) := by
  unfold parseIniLineChars
  rw [if_neg, if_pos]
  · rw [List.drop_one, List.tail_cons, List.dropLast_concat, mk_data]
  · rfl
  · rintro (hlen | hhd)
    · simp only [List.length_cons, List.length_append, List.length_singleton] at hlen
      omega
    · exact absurd hhd (by simp)

/-- Processing a rendered `key = value` line looks the key up in the
current section and applies the value via `setString`. -/
theorem parseIniLineChars_kv (r : Registry) (sec k v : String)
    (hk : GoodKey k.data) (hv : GoodVal v.data) :
    parseIniLineChars r sec (k.data ++ [' ', '='] ++ (' ' :: v.data))
      = match r.getParam sec k with
        | none => none
        | some p => (p.setString v).map fun q => (r.install sec k q, sec) := by
  obtain ⟨hne, hsharp, hbrack, heq, hwsh, hwsl⟩ := hk
  obtain ⟨c, k', hkd⟩ : ∃ c k', k.data = c :: k' := by
    cases hkd2 : k.data with
    | nil => exact absurd hkd2 hne
    | cons c k' => exact ⟨c, k', rfl⟩
  have hcbrack : c ≠ '[' := by rw [hkd] at hbrack; exact hbrack
  have hcsharp : c ≠ '#' := by rw [hkd] at hsharp; exact hsharp
  have hhead : (k.data ++ [' ', '='] ++ (' ' :: v.data)).head? = some c := by
    rw [hkd]; rfl
  unfold parseIniLineChars
  rw [if_neg, if_neg]
  · have hsplit : splitFirstEq (k.data ++ [' ', '='] ++ (' ' :: v.data))
        = (k.data ++ [' '], ' ' :: v.data) := by
      rw [show k.data ++ [' ', '='] ++ (' ' :: v.data)
          = (k.data ++ [' ']) ++ '=' :: (' ' :: v.data) by simp]
      refine splitFirstEq_append _ _ ?_
      intro x hx
      rcases List.mem_append.1 hx with hx | hx
      · exact heq x hx
      · simp only [List.mem_singleton] at hx
        subst hx
        decide
    simp only [hsplit]
    rw [trimChars_key k.data ⟨hne, hsharp, hbrack, heq, hwsh, hwsl⟩,
      trimChars_val v.data hv, mk_data, mk_data]
  · rw [hhead]
    intro hc
    injection hc with hc
    exact absurd hc hcbrack
  · rintro (hlen | hhd)
    · simp only [List.length_append, List.length_cons, hkd] at hlen
      omega
    · rw [hhead] at hhd
      injection hhd with hc
      exact absurd hc hcsharp

theorem render_sec_data (s : String) :
    ("[" ++ s ++ "]").data = '[' :: (s.data ++ [']']) := by
  rw [data_append, data_append]
  rfl

theorem render_kv_data (k v : String) :
    (k ++ " = " ++ v).data = k.data ++ [' ', '='] ++ (' ' :: v.data) := by
  rw [data_append, data_append]
  simp

theorem parseIniLinesGo_append (l1 l2 : List String) :
    ∀ st, parseIniLinesGo st (l1 ++ l2)
      = match parseIniLinesGo st l1 with
        | none => none
        | some st' => parseIniLinesGo st' l2 := by
  induction l1 with
  | nil => intro st; rfl
  | cons a l1 ih =>
    intro st
    simp only [List.cons_append, parseIniLinesGo]
    cases parseIniLine st a with
    | none => rfl
    | some st' => exact ih st'

/-- The key-value lines of one section, processed in order: each line is a
lookup at (section, key) followed by `setString`. -/
theorem parseIniLinesGo_kvs :
    ∀ (kvs : List (String × String)) (r : Registry) (s : String),
      (∀ kv ∈ kvs, GoodKey kv.1.data ∧ GoodVal kv.2.data) →
      parseIniLinesGo (r, s) (kvs.map fun kv => kv.1 ++ " = " ++ kv.2)
        = (applyKVs r s kvs).map fun r' => (r', s) := by
  intro kvs
  induction kvs with
  | nil => intro r s _; rfl
  | cons kv kvs ih =>
    intro r s h
    obtain ⟨hgk, hgv⟩ := h kv (List.mem_cons_self _ _)
    have hline : parseIniLine (r, s) (kv.1 ++ " = " ++ kv.2)
        = match r.getParam s kv.1 with
          | none => none
          | some p => (p.setString kv.2).map fun q => (r.install s kv.1 q, s) := by
      show parseIniLineChars r s (kv.1 ++ " = " ++ kv.2).data = _
      rw [render_kv_data]
      exact parseIniLineChars_kv r s kv.1 kv.2 hgk hgv
    simp only [List.map_cons, parseIniLinesGo, hline, applyKVs]
    cases hgp : r.getParam s kv.1 with
    | none => rfl
    | some p =>
      cases hset : p.setString kv.2 with
      | none => simp [hset]
      | some q =>
        simp only [hset, Option.map_some]
        exact ih (r.install s kv.1 q) s fun x hx => h x (List.mem_cons_of_mem _ hx)

/-- The full render of the structured data, processed from any starting
section: the header switches the section, then each `key = value` line is
applied; the final current section is some `s'`. -/
theorem parseIniLinesGo_render :
    ∀ (secs : List (String × List (String × String))) (r : Registry) (s0 : String),
      (∀ sv ∈ secs, ∀ kv ∈ sv.2, GoodKey kv.1.data ∧ GoodVal kv.2.data) →
      ∃ s', parseIniLinesGo (r, s0) (renderIniLines secs)
        = (applyIniData r secs).map fun r' => (r', s') := by
  intro secs
  induction secs with
  | nil => intro r s0 _; exact ⟨s0, rfl⟩
  | cons sv secs ih =>
    intro r s0 h
    obtain ⟨s, kvs⟩ := sv
    have hhdr : parseIniLine (r, s0) ("[" ++ s ++ "]") = some (r, s) := by
      show parseIniLineChars r s0 ("[" ++ s ++ "]").data = _
      rw [render_sec_data]
      exact parseIniLineChars_section r s0 s
    have hkvs := parseIniLinesGo_kvs kvs r s
      fun kv hkv => h (s, kvs) (List.mem_cons_self _ _) kv hkv
    simp only [renderIniLines, parseIniLinesGo, hhdr, parseIniLinesGo_append, hkvs,
      applyIniData]
    cases hinner : applyKVs r s kvs with
    | none => exact ⟨s, rfl⟩
    | some r' =>
      simp only [Option.map_some]
      exact ih r' s fun x hx kv hkv => h x (List.mem_cons_of_mem _ hx) kv hkv

/-- C8: during ini parsing, a `key = value` line is a lookup of the
declared Parameter at (current section, key) followed by `setString` of
the value: an undeclared key is a fatal lookup failure at that very line
(the whole parse aborts as undefined, never skipping the line), and when
every mentioned pair is declared, every line is applied via `setString` to
the existing Parameter, in order. -/
theorem parse_ini_lookup_setString :
    ∀ (secs : List (String × List (String × String))) (r : Registry) (s0 : String),
      (∀ sv ∈ secs, ∀ kv ∈ sv.2, GoodKey kv.1.data ∧ GoodVal kv.2.data) →
      r.parseIniLines s0 (renderIniLines secs) = applyIniData r secs := by
  intro secs r s0 h
  obtain ⟨s', hs⟩ := parseIniLinesGo_render secs r s0 h
  unfold Registry.parseIniLines
  rw [hs]
  cases applyIniData r secs <;> rfl

/-- C8 witness: with the declared integer parameter `("S","k")`, the
rendered ini text `[S] / k = 7` is applied via `setString` (the value
becomes 7), while a reference to the undeclared key `missing` makes the
parse fatal (`none`). -/
theorem parse_ini_lookup_setString_witness :
    reg8.parseIniLines "Global" (renderIniLines [("S", [("k", "7")])])
        = applyIniData reg8 [("S", [("k", "7")])]
      ∧ applyIniData reg8 [("S", [("k", "7")])]
        = some (reg8.install "S" "k" (.pInt 7))
      ∧ reg8.parseIniLines "Global" (renderIniLines [("S", [("missing", "1")])])
        = applyIniData reg8 [("S", [("missing", "1")])]
      ∧ applyIniData reg8 [("S", [("missing", "1")])] = none := by
  refine ⟨parse_ini_lookup_setString [("S", [("k", "7")])] reg8 "Global" ?_, by decide,
    parse_ini_lookup_setString [("S", [("missing", "1")])] reg8 "Global" ?_, by decide⟩
  · intro sv hsv kv hkv
    fin_cases hsv
    fin_cases hkv
    exact ⟨by decide, by decide⟩
  · intro sv hsv kv hkv
    fin_cases hsv
    fin_cases hkv
    exact ⟨by decide, by decide⟩

end CtkCLI
